import Mathlib

/-!
Verification development for the GitHealthCheck-CLI repository.

This file gives a shallow embedding, in Lean 4, of the parts of the
repository that the specification talks about:

* `AnalysisOrchestrator.execute_analysis` and
  `AnalysisOrchestrator._execute_step_method`
  (src/repo_health_analyzer/core/orchestrator.py);
* `ArchitectureAnalyzer._detect_circular_dependencies`,
  `ArchitectureAnalyzer._calculate_inheritance_depth`,
  `ArchitectureAnalyzer._calculate_architecture_metrics` and
  `ArchitectureAnalyzer.analyze`
  (src/repo_health_analyzer/core/analyzers/architecture_analyzer.py);
* `MetricsCalculator.calculate_overall_metrics` and
  `MetricsCalculator.generate_recommendations`
  (src/repo_health_analyzer/core/orchestrator.py).

Python `float` arithmetic on the small scores involved is modelled with
exact rationals (`ℚ`); Python machine floats only differ from exact
rational arithmetic here for rounding at representation boundaries, which
none of the checked values touch.  Python dicts are modelled as
association lists in insertion order; Python sets whose iteration order
matters only for the order, never the content, of the results are
modelled as lists.
-/

namespace GitHealth

/-! ## Orchestrator: data model

An analysis step as stored by `AnalysisOrchestrator.register_step`: the
step dict `{'name': …, 'analyzer': …, 'method': …, 'dependencies': …}`
restricted to the fields that the scheduler reads (`analyzer`/`method`
are opaque to scheduling; invoking a step is observed in the execution
trace instead). -/
structure Step where
  name : String
  deps : List String
deriving Repr, DecidableEq

/-- The list `[s['name'] for s in self.analysis_steps]`, in registration
order. -/
def stepNames (steps : List Step) : List String :=
  steps.map Step.name

/-- One full scan of the inner `for step in self.analysis_steps` loop of
`execute_analysis`: the first registered step whose name is not in
`completed_steps` and all of whose dependencies are in
`completed_steps`; `none` when the `for` loop falls through to its
`else` clause. -/
def findRunnable (steps : List Step) (completed : List String) : Option Step :=
  steps.find? fun s => !(completed.contains s.name) && s.deps.all completed.contains

/-- The list `[s['name'] for s in self.analysis_steps if s['name'] not in completed_steps]`,
the list interpolated into the `RuntimeError` message. -/
def remainingNames (steps : List Step) (completed : List String) : List String :=
  (steps.filter fun s => !(completed.contains s.name)).map Step.name

instance {ε α : Type} [DecidableEq ε] [DecidableEq α] : DecidableEq (Except ε α) := fun x y =>
  match x, y with
  | .ok a, .ok b =>
    if h : a = b then .isTrue (by rw [h]) else .isFalse (fun hh => h (Except.ok.inj hh))
  | .error e, .error f =>
    if h : e = f then .isTrue (by rw [h]) else .isFalse (fun hh => h (Except.error.inj hh))
  | .ok _, .error _ => .isFalse (fun hh => Except.noConfusion hh)
  | .error _, .ok _ => .isFalse (fun hh => Except.noConfusion hh)

/-- Observable outcome of `execute_analysis`: the steps that were invoked,
in invocation order (`results[step['name']] = result` is executed exactly
once per invoked step, so the keys of the returned `results` dict are the
names of `executed` in this order), and either normal return (`Except.ok`)
or the `RuntimeError` carrying the remaining-step-name list
(`Except.error`). -/
structure ExecResult where
  executed : List Step
  outcome : Except (List String) Unit
deriving Repr, DecidableEq

/-- The `while len(completed_steps) < total_steps` loop of
`execute_analysis`.  Each iteration either invokes the first runnable
step and rescans, or raises.  `fuel` counts remaining loop iterations;
`execute_analysis` supplies `steps.length`, which is proven sufficient
(`execGo` is only ever called with `fuel + executed.length =
steps.length`, and every invoked step has a fresh name, so the
`fuel = 0` branch below is unreachable).  Since invoked names are
pairwise distinct, `executed.length` equals the Python set size
`len(completed_steps)`. -/
def execGo (steps : List Step) : Nat → List Step → ExecResult
  | fuel, executed =>
    if executed.length < steps.length then
      match findRunnable steps (executed.map Step.name) with
      | some s =>
        match fuel with
        | 0 => ⟨executed, Except.error []⟩
        | fuel' + 1 => execGo steps fuel' (executed ++ [s])
      | none => ⟨executed, Except.error (remainingNames steps (executed.map Step.name))⟩
    else ⟨executed, Except.ok ()⟩

/-- Model of `AnalysisOrchestrator.execute_analysis` for a given registration list. -/
def execute_analysis (steps : List Step) : ExecResult :=
  execGo steps steps.length []

/-- Dependency discipline of an execution trace: every invoked step's
declared dependencies are names of previously invoked steps (i.e. keys
of the `results` dict at the moment of the call). -/
def DepsRespected (executed : List Step) : Prop :=
  ∀ i s, executed[i]? = some s → ∀ d ∈ s.deps, d ∈ stepNames (executed.take i)

/-- Scheduler state invariant maintained by the `while` loop. -/
def Inv (steps executed : List Step) : Prop :=
  (executed.map Step.name).Nodup ∧ (∀ s ∈ executed, s ∈ steps) ∧ DepsRespected executed

lemma contains_eq_false_iff (l : List String) (a : String) :
    (l.contains a = false) ↔ a ∉ l := by simp

lemma depsRespected_append {executed : List Step} {s : Step}
    (h : DepsRespected executed) (hs : ∀ d ∈ s.deps, d ∈ stepNames executed) :
    DepsRespected (executed ++ [s]) := by
  intro i t ht d hd
  rcases lt_trichotomy i executed.length with hlt | heq | hgt
  · rw [List.getElem?_append, if_pos hlt] at ht
    rw [List.take_append_of_le_length (le_of_lt hlt)]
    exact h i t ht d hd
  · subst heq
    rw [List.getElem?_append, if_neg (lt_irrefl _), Nat.sub_self] at ht
    simp only [List.getElem?_cons_zero, Option.some.injEq] at ht
    subst ht
    rw [List.take_append_of_le_length le_rfl, List.take_length]
    exact hs d hd
  · rw [List.getElem?_append, if_neg (by omega)] at ht
    have : i - executed.length ≥ 1 := by omega
    rw [List.getElem?_eq_none (by simpa using this)] at ht
    exact absurd ht (by simp)

/-- Decomposition of the `find?` predicate of `findRunnable`. -/
lemma findRunnable_some {steps : List Step} {completed : List String} {s : Step}
    (h : findRunnable steps completed = some s) :
    s ∈ steps ∧ s.name ∉ completed ∧ ∀ d ∈ s.deps, d ∈ completed := by
  have hmem := List.mem_of_find?_eq_some h
  have hp := List.find?_some h
  simp only [Bool.and_eq_true, Bool.not_eq_true', List.all_eq_true, List.elem_iff,
    contains_eq_false_iff] at hp
  exact ⟨hmem, hp.1, hp.2⟩

/-- The main loop lemma: from any state satisfying the invariant with
exactly enough fuel, the loop extends the trace and either returns
normally having invoked `steps.length` many distinct-named steps, or
raises the `RuntimeError` listing the registered names not completed,
at a point where no registered step is runnable. -/
lemma execGo_spec (steps : List Step) :
    ∀ fuel executed, fuel + executed.length = steps.length → Inv steps executed →
    ∃ tail : List Step,
      (execGo steps fuel executed).executed = executed ++ tail ∧
      Inv steps (executed ++ tail) ∧
      (((execGo steps fuel executed).outcome = Except.ok () ∧
          (executed ++ tail).length = steps.length) ∨
       ((execGo steps fuel executed).outcome =
          Except.error (remainingNames steps ((executed ++ tail).map Step.name)) ∧
        (executed ++ tail).length < steps.length ∧
        findRunnable steps ((executed ++ tail).map Step.name) = none)) := by
  intro fuel
  induction fuel with
  | zero =>
    intro executed hlen hinv
    have hge : ¬ executed.length < steps.length := by omega
    refine ⟨[], ?_⟩
    rw [List.append_nil, execGo, if_neg hge]
    exact ⟨rfl, hinv, Or.inl ⟨rfl, by omega⟩⟩
  | succ f ih =>
    intro executed hlen hinv
    have hcond : executed.length < steps.length := by omega
    rw [execGo, if_pos hcond]
    cases hfind : findRunnable steps (executed.map Step.name) with
    | none =>
      refine ⟨[], ?_⟩
      rw [List.append_nil]
      exact ⟨rfl, hinv, Or.inr ⟨rfl, hcond, hfind⟩⟩
    | some s =>
      obtain ⟨hmem, hname, hdeps⟩ := findRunnable_some hfind
      obtain ⟨hnd, hsub, hdr⟩ := hinv
      have hinv' : Inv steps (executed ++ [s]) := by
        refine ⟨?_, ?_, depsRespected_append hdr hdeps⟩
        · rw [List.map_append, List.nodup_append]
          refine ⟨hnd, List.nodup_singleton _, fun a ha hb => ?_⟩
          simp only [List.map_cons, List.map_nil, List.mem_singleton] at hb
          exact hname (hb ▸ ha)
        · intro t ht
          rcases List.mem_append.mp ht with h | h
          · exact hsub t h
          · simp only [List.mem_singleton] at h
            subst h; exact hmem
      have hlen' : f + (executed ++ [s]).length = steps.length := by
        simp only [List.length_append, List.length_singleton]; omega
      obtain ⟨tail, h1, h2, h3⟩ := ih (executed ++ [s]) hlen' hinv'
      exact ⟨s :: tail, by simpa using h1, by simpa using h2, by simpa using h3⟩

/-- In any list, an element occurring within the first `i` positions has
index below `i`. -/
lemma indexOf_lt_of_mem_take {l : List String} {d : String} :
    ∀ {i : ℕ}, d ∈ l.take i → l.indexOf d < i := by
  induction l with
  | nil => intro i h; simp at h
  | cons a tl ih =>
    intro i h
    cases i with
    | zero => simp at h
    | succ j =>
      rw [List.take_succ_cons] at h
      rw [List.indexOf_cons]
      by_cases hda : a = d
      · simp [hda]
      · have : d ∈ tl.take j := by
          rcases List.mem_cons.mp h with h | h
          · exact absurd h.symm hda
          · exact h
        have := ih this
        have hbeq : (a == d) = false := beq_eq_false_iff_ne.mpr hda
        rw [hbeq, cond_false]
        omega

/-- When the registered names are distinct, every declared dependency
names a registered step, and the dependency relation admits a rank
function (equivalently: is acyclic), any incomplete state has a runnable
step. -/
lemma findRunnable_isSome (steps : List Step) (completed : List String)
    (hclosed : ∀ s ∈ steps, ∀ d ∈ s.deps, d ∈ stepNames steps)
    (rank : String → ℕ)
    (hrank : ∀ s ∈ steps, ∀ d ∈ s.deps, rank d < rank s.name)
    (hpend : ∃ s ∈ steps, s.name ∉ completed) :
    (findRunnable steps completed).isSome := by
  classical
  set pending := steps.filter (fun s => !(completed.contains s.name)) with hp
  have hpne : pending ≠ [] := by
    obtain ⟨s, hs, hn⟩ := hpend
    intro h
    have hsp : s ∈ pending := List.mem_filter.mpr ⟨hs, by simpa using hn⟩
    rw [h] at hsp
    simp at hsp
  obtain ⟨m, hm⟩ : ∃ m, m ∈ pending.argmin (fun s => rank s.name) := by
    cases h : pending.argmin (fun s => rank s.name) with
    | none => exact absurd (List.argmin_eq_none.mp h) hpne
    | some m => exact ⟨m, Option.mem_def.mpr rfl⟩
  have hmp : m ∈ pending := List.argmin_mem hm
  have hmsteps : m ∈ steps := (List.mem_filter.mp hmp).1
  have hmname : m.name ∉ completed := by
    have := (List.mem_filter.mp hmp).2
    simpa using this
  have hdeps : ∀ d ∈ m.deps, d ∈ completed := by
    intro d hd
    by_contra hdc
    have hdn : d ∈ stepNames steps := hclosed m hmsteps d hd
    obtain ⟨t, ht, htn⟩ : ∃ t ∈ steps, t.name = d := by
      simpa [stepNames, List.mem_map] using hdn
    have htp : t ∈ pending := List.mem_filter.mpr ⟨ht, by simpa [htn] using hdc⟩
    have hle := List.le_of_mem_argmin htp hm
    have hlt := hrank m hmsteps d hd
    rw [htn] at hle
    omega
  rw [findRunnable, List.find?_isSome]
  refine ⟨m, hmsteps, ?_⟩
  simp only [Bool.and_eq_true, Bool.not_eq_true', List.all_eq_true, List.elem_iff,
    contains_eq_false_iff]
  exact ⟨hmname, hdeps⟩

lemma ExecResult.ext {a b : ExecResult} (h1 : a.executed = b.executed)
    (h2 : a.outcome = b.outcome) : a = b := by
  cases a; cases b
  simp only at h1 h2
  rw [h1, h2]

lemma inv_nil (steps : List Step) : Inv steps [] :=
  ⟨by simp, by simp, by intro i s h; simp at h⟩

/-- C1: for every registered set of stages whose dependency relation is a
valid DAG — pairwise distinct registered names, every declared dependency
naming a registered stage, and an acyclic dependency relation (witnessed
by a rank function strictly decreasing along dependency edges, which for
a finite graph is equivalent to having no cycle) — `execute_analysis`
terminates and returns normally; the invoked steps are exactly the
registered steps, each invoked once (so the returned results dict has
exactly one entry per registered stage), and at the moment each stage is
invoked all of its declared dependencies are already keys of the results
dict. -/
theorem execute_analysis_valid_dag (steps : List Step)
    (hnodup : (stepNames steps).Nodup)
    (hclosed : ∀ s ∈ steps, ∀ d ∈ s.deps, d ∈ stepNames steps)
    (hdag : ∃ rank : String → ℕ, ∀ s ∈ steps, ∀ d ∈ s.deps, rank d < rank s.name) :
    ∃ executed : List Step,
      execute_analysis steps = ⟨executed, Except.ok ()⟩ ∧
      executed.Perm steps ∧
      DepsRespected executed := by
  obtain ⟨rank, hrank⟩ := hdag
  obtain ⟨tail, h1, h2, h3⟩ := execGo_spec steps steps.length [] (by simp) (inv_nil steps)
  rw [List.nil_append] at h1 h2 h3
  obtain ⟨hnd, hsub, hdr⟩ := h2
  rcases h3 with ⟨hok, hlen⟩ | ⟨herr, hlt, hnone⟩
  · refine ⟨tail, ExecResult.ext h1 hok, ?_, hdr⟩
    have hndt : tail.Nodup := List.Nodup.of_map _ hnd
    exact (List.subperm_of_subset hndt fun s hs => hsub s hs).perm_of_length_le (by omega)
  · exfalso
    have hpend : ∃ s ∈ steps, s.name ∉ tail.map Step.name := by
      by_contra hall
      push_neg at hall
      have hsubn : stepNames steps ⊆ tail.map Step.name := by
        intro n hn
        obtain ⟨s, hs, rfl⟩ := List.mem_map.mp hn
        exact hall s hs
      have hle := (List.subperm_of_subset hnodup hsubn).length_le
      simp only [stepNames, List.length_map] at hle
      omega
    have hsome := findRunnable_isSome steps (tail.map Step.name) hclosed rank hrank hpend
    rw [hnone] at hsome
    simp at hsome

/-- C1 witness: the two-stage DAG b, a({b}) completes, with each stage
run once and dependencies respected. -/
theorem execute_analysis_valid_dag_witness :
    ∃ executed : List Step,
      execute_analysis [⟨"b", []⟩, ⟨"a", ["b"]⟩] = ⟨executed, Except.ok ()⟩ ∧
      executed.Perm [⟨"b", []⟩, ⟨"a", ["b"]⟩] ∧
      DepsRespected executed :=
  execute_analysis_valid_dag _ (by decide) (by decide)
    ⟨fun n => if n = "b" then 0 else 1, by decide⟩

/-- C2: whenever the registered stages (with distinct names) do not form
a valid DAG — a dependency cycle, or a dependency on a never-registered
name, i.e. the negation of the closure-plus-rank condition of a valid
DAG — `execute_analysis` terminates and raises a `RuntimeError` whose
message lists exactly the names of the registered stages not yet
completed, a nonempty list; and on the concrete two-stage graph
A({B}), B({A}) it raises naming both A and B, without invoking any
stage. -/
theorem execute_analysis_unresolvable :
    (∀ steps : List Step, (stepNames steps).Nodup →
      ¬ ((∀ s ∈ steps, ∀ d ∈ s.deps, d ∈ stepNames steps) ∧
         ∃ rank : String → ℕ, ∀ s ∈ steps, ∀ d ∈ s.deps, rank d < rank s.name) →
      (execute_analysis steps).outcome =
        Except.error
          (remainingNames steps ((execute_analysis steps).executed.map Step.name)) ∧
      remainingNames steps ((execute_analysis steps).executed.map Step.name) ≠ []) ∧
    execute_analysis [⟨"A", ["B"]⟩, ⟨"B", ["A"]⟩] = ⟨[], Except.error ["A", "B"]⟩ := by
  constructor
  · intro steps hnodup hbad
    obtain ⟨tail, h1, h2, h3⟩ := execGo_spec steps steps.length [] (by simp) (inv_nil steps)
    rw [List.nil_append] at h1 h2 h3
    obtain ⟨hnd, hsub, hdr⟩ := h2
    have hexec : (execute_analysis steps).executed = tail := h1
    rcases h3 with ⟨hok, hlen⟩ | ⟨herr, hlt, hnone⟩
    · exfalso
      apply hbad
      have hndt : tail.Nodup := List.Nodup.of_map _ hnd
      have hperm : tail.Perm steps :=
        (List.subperm_of_subset hndt fun s hs => hsub s hs).perm_of_length_le (by omega)
      constructor
      · intro s hs d hd
        have hst : s ∈ tail := hperm.mem_iff.mpr hs
        obtain ⟨i, hi⟩ := List.getElem?_of_mem hst
        have hdi := hdr i s hi d hd
        have hsubn : stepNames (tail.take i) ⊆ stepNames steps := by
          intro n hn
          obtain ⟨t, htm, rfl⟩ := List.mem_map.mp hn
          exact List.mem_map.mpr ⟨t, hsub t (List.take_subset i tail htm), rfl⟩
        exact hsubn hdi
      · refine ⟨fun n => (tail.map Step.name).indexOf n, fun s hs d hd => ?_⟩
        have hst : s ∈ tail := hperm.mem_iff.mpr hs
        obtain ⟨i, hi⟩ := List.getElem?_of_mem hst
        have hdi := hdr i s hi d hd
        rw [stepNames, List.map_take] at hdi
        have hidx := indexOf_lt_of_mem_take hdi
        have hmi : (tail.map Step.name)[i]? = some s.name := by
          rw [List.getElem?_map, hi]
          rfl
        obtain ⟨hilen, hig⟩ := List.getElem?_eq_some.mp hmi
        have hidxeq : (tail.map Step.name).indexOf s.name = i := by
          rw [← hig]
          exact List.indexOf_getElem hnd i hilen
        show (tail.map Step.name).indexOf d < (tail.map Step.name).indexOf s.name
        rw [hidxeq]
        exact hidx
    · rw [hexec]
      refine ⟨herr, fun hempty => ?_⟩
      rw [remainingNames, List.map_eq_nil_iff, List.filter_eq_nil_iff] at hempty
      have hsubn : stepNames steps ⊆ tail.map Step.name := by
        intro n hn
        obtain ⟨s, hs, rfl⟩ := List.mem_map.mp hn
        have := hempty s hs
        simpa using this
      have hle := (List.subperm_of_subset hnodup hsubn).length_le
      simp only [stepNames, List.length_map] at hle
      omega
  · decide

/-- C2 witness: the cyclic two-stage graph A({B}), B({A}) satisfies the
hypotheses and the scheduler raises listing A and B. -/
theorem execute_analysis_unresolvable_witness :
    (execute_analysis [⟨"A", ["B"]⟩, ⟨"B", ["A"]⟩]).outcome =
      Except.error (remainingNames [⟨"A", ["B"]⟩, ⟨"B", ["A"]⟩]
        ((execute_analysis [⟨"A", ["B"]⟩, ⟨"B", ["A"]⟩]).executed.map Step.name)) ∧
    remainingNames [⟨"A", ["B"]⟩, ⟨"B", ["A"]⟩]
      ((execute_analysis [⟨"A", ["B"]⟩, ⟨"B", ["A"]⟩]).executed.map Step.name) ≠ [] :=
  execute_analysis_unresolvable.1 _ (by decide) fun h => by
    obtain ⟨-, rank, hr⟩ := h
    have h1 := hr ⟨"A", ["B"]⟩ (by simp) "B" (by simp)
    have h2 := hr ⟨"B", ["A"]⟩ (by simp) "A" (by simp)
    simp only at h1 h2
    omega

/-- C10 (amended): if two steps are registered under the same name,
`execute_analysis` never returns normally: it terminates by raising the
unresolvable-dependencies `RuntimeError` listing the registered names
not completed, and at most one step per name is invoked (the invocation
trace has pairwise distinct names, each invoked step being a registered
step).  The original claim's stronger assertions — that the invoked step
of a duplicated name is always the first-registered one and that the
listed remaining set is always empty — are refuted by the accompanying
concrete counterexample. -/
theorem execute_analysis_duplicate_name (steps : List Step)
    (hdup : ¬ (stepNames steps).Nodup) :
    ((execute_analysis steps).executed.map Step.name).Nodup ∧
    (∀ s ∈ (execute_analysis steps).executed, s ∈ steps) ∧
    (execute_analysis steps).outcome =
      Except.error (remainingNames steps ((execute_analysis steps).executed.map Step.name)) := by
  obtain ⟨tail, h1, h2, h3⟩ := execGo_spec steps steps.length [] (by simp) (inv_nil steps)
  rw [List.nil_append] at h1 h2 h3
  obtain ⟨hnd, hsub, hdr⟩ := h2
  have hexec : (execute_analysis steps).executed = tail := h1
  rcases h3 with ⟨hok, hlen⟩ | ⟨herr, hlt, hnone⟩
  · exfalso
    apply hdup
    have hndt : tail.Nodup := List.Nodup.of_map _ hnd
    have hperm : tail.Perm steps :=
      (List.subperm_of_subset hndt fun s hs => hsub s hs).perm_of_length_le (by omega)
    exact ((hperm.map Step.name).nodup_iff).mp hnd
  · rw [hexec]
    exact ⟨hnd, hsub, herr⟩

/-- C10 witness: registering A twice makes `execute_analysis` raise with
a distinct-named trace of registered steps. -/
theorem execute_analysis_duplicate_name_witness :
    ((execute_analysis [⟨"A", []⟩, ⟨"A", []⟩]).executed.map Step.name).Nodup ∧
    (∀ s ∈ (execute_analysis [⟨"A", []⟩, ⟨"A", []⟩]).executed, s ∈ [⟨"A", []⟩, ⟨"A", []⟩]) ∧
    (execute_analysis [⟨"A", []⟩, ⟨"A", []⟩]).outcome =
      Except.error (remainingNames [⟨"A", []⟩, ⟨"A", []⟩]
        ((execute_analysis [⟨"A", []⟩, ⟨"A", []⟩]).executed.map Step.name)) :=
  execute_analysis_duplicate_name _ (by decide)

/-- C10 counterexample: with registration order A({B}), A({}), C({D}),
the step invoked under the duplicated name A is the SECOND-registered
one ⟨A, {}⟩ (the first-registered ⟨A, {B}⟩ is skipped because its
dependency is unmet at scan time), and the raised error lists the
nonempty remaining set ["C"] — refuting both that only the
first-registered step of a duplicated name is ever invoked and that the
listed remaining set is always empty. -/
theorem execute_analysis_duplicate_name_counterexample :
    execute_analysis [⟨"A", ["B"]⟩, ⟨"A", []⟩, ⟨"C", ["D"]⟩] =
      ⟨[⟨"A", []⟩], Except.error ["C"]⟩ := by decide

/-! ## Orchestrator: `_execute_step_method` parameter binding -/

/-- A Python value as far as `_execute_step_method` observes one:
`None`, an int, a string, or a list (the only shape the `source_files`
normalization inspects). -/
inductive PyVal where
  | none
  | int (n : ℤ)
  | str (s : String)
  | vlist (xs : List PyVal)

/-- Python truthiness for the values above. -/
def PyVal.truthy : PyVal → Bool
  | .none => false
  | .int n => n != 0
  | .str s => s != ""
  | .vlist xs => !xs.isEmpty

/-- The Python identity test `v is None`. -/
def PyVal.isNone : PyVal → Bool
  | .none => true
  | _ => false

/-- A Python dict with string keys, in insertion order. -/
abbrev PyDict := List (String × PyVal)

/-- Python `d.get(k)`, i.e. `d.get(k, None)`. -/
def dictGet (d : PyDict) (k : String) : PyVal := (d.lookup k).getD PyVal.none

/-- Python `d.get(k, default)`. -/
def dictGetD (d : PyDict) (k : String) (v : PyVal) : PyVal := (d.lookup k).getD v

/-- Python `k in d`. -/
def dictMem (d : PyDict) (k : String) : Bool := (d.lookup k).isSome

/-- Lines 111–123 of `_execute_step_method`: the resolved `source_files`
value is normalized — a non-`None`, non-list value is wrapped into
`[value]` when truthy and `[]` otherwise, and a truthy list longer than
1000 entries is cut to its first 1000 entries. -/
def normalizeSourceFiles (v : PyVal) : PyVal :=
  let v1 : PyVal :=
    match v with
    | PyVal.none => PyVal.none
    | PyVal.vlist xs => PyVal.vlist xs
    | w => if w.truthy then PyVal.vlist [w] else PyVal.vlist []
  match v1 with
  | PyVal.vlist xs =>
      if (PyVal.vlist xs).truthy then
        if xs.length > 1000 then PyVal.vlist (xs.take 1000) else PyVal.vlist xs
      else PyVal.vlist xs
  | w => w

/-- The `param_mapping` dict of `_execute_step_method` (lines 129–134):
`repo_path` from the context only; `source_files` from the results then
the context, normalized; `commit_history` from the results then the
context; `repo_info` from the results key `git_parsing` then the context
key `repo_info`. -/
def param_mapping (context results : PyDict) : PyDict :=
  [("repo_path", dictGet context "repo_path"),
   ("source_files",
     normalizeSourceFiles (dictGetD results "source_files" (dictGet context "source_files"))),
   ("commit_history", dictGetD results "commit_history" (dictGet context "commit_history")),
   ("repo_info", dictGetD results "git_parsing" (dictGet context "repo_info"))]

/-- The `for param_name in sig.parameters` loop of `_execute_step_method`
(lines 136–142): builds the `kwargs` dict by appending, in signature
order, each parameter that resolves; `method(**kwargs)` receives exactly
this dict, and the method is called with zero arguments when it is
empty. -/
def buildKwargs (params : List String) (context results : PyDict) : PyDict :=
  params.foldl (fun kwargs p =>
    match (param_mapping context results).lookup p with
    | some v =>
      if !v.isNone then kwargs ++ [(p, v)]
      else if dictMem context p then kwargs ++ [(p, dictGet context p)]
      else if dictMem results p then kwargs ++ [(p, dictGet results p)]
      else kwargs
    | Option.none =>
      if dictMem context p then kwargs ++ [(p, dictGet context p)]
      else if dictMem results p then kwargs ++ [(p, dictGet results p)]
      else kwargs) []

/-- Pointwise description of the binding rule the loop implements: a
specially-mapped name (`repo_path`, `source_files`, `commit_history`,
`repo_info`) binds to its mapped value when that value is non-`None`;
otherwise the name binds to the context entry when the key is present
(even when the stored value is `None`); otherwise to the results entry
when present; otherwise the parameter is omitted. -/
def resolveParam (context results : PyDict) (p : String) : Option PyVal :=
  match (param_mapping context results).lookup p with
  | some v =>
    if !v.isNone then some v
    else if dictMem context p then some (dictGet context p)
    else if dictMem results p then some (dictGet results p)
    else Option.none
  | Option.none =>
    if dictMem context p then some (dictGet context p)
    else if dictMem results p then some (dictGet results p)
    else Option.none

/-- The binding rule as the specification words it (claim C8): each
named input is looked up first in the completed-results dict, then in
the context; an input that resolves to `None`, or is absent from both,
is omitted from the call. -/
def spec_resolveParam (context results : PyDict) (p : String) : Option PyVal :=
  match results.lookup p with
  | some v => if v.isNone then Option.none else some v
  | Option.none =>
    match context.lookup p with
    | some v => if v.isNone then Option.none else some v
    | Option.none => Option.none

/-- Model of `buildKwargs` as the specification's rule would compute it. -/
def spec_buildKwargs (params : List String) (context results : PyDict) : PyDict :=
  params.filterMap fun p => (spec_resolveParam context results p).map fun v => (p, v)

lemma buildKwargs_step (context results : PyDict) (acc : PyDict) (p : String) :
    (match (param_mapping context results).lookup p with
      | some v =>
        if !v.isNone then acc ++ [(p, v)]
        else if dictMem context p then acc ++ [(p, dictGet context p)]
        else if dictMem results p then acc ++ [(p, dictGet results p)]
        else acc
      | Option.none =>
        if dictMem context p then acc ++ [(p, dictGet context p)]
        else if dictMem results p then acc ++ [(p, dictGet results p)]
        else acc) =
    acc ++ ((resolveParam context results p).map fun v => (p, v)).toList := by
  simp only [resolveParam]
  cases h : (param_mapping context results).lookup p with
  | some v =>
    cases h1 : v.isNone with
    | false => simp [h1]
    | true =>
      cases h2 : dictMem context p with
      | true => simp [h1, h2]
      | false => cases h3 : dictMem results p <;> simp [h1, h2, h3]
  | none =>
    cases h2 : dictMem context p with
    | true => simp [h2]
    | false => cases h3 : dictMem results p <;> simp [h2, h3]

lemma buildKwargs_go (context results : PyDict) (params : List String) :
    ∀ acc : PyDict,
      params.foldl (fun kwargs p =>
        match (param_mapping context results).lookup p with
        | some v =>
          if !v.isNone then kwargs ++ [(p, v)]
          else if dictMem context p then kwargs ++ [(p, dictGet context p)]
          else if dictMem results p then kwargs ++ [(p, dictGet results p)]
          else kwargs
        | Option.none =>
          if dictMem context p then kwargs ++ [(p, dictGet context p)]
          else if dictMem results p then kwargs ++ [(p, dictGet results p)]
          else kwargs) acc =
      acc ++ params.filterMap fun p => (resolveParam context results p).map fun v => (p, v) := by
  induction params with
  | nil => intro acc; simp
  | cons p ps ih =>
    intro acc
    rw [List.foldl_cons, ih, buildKwargs_step context results acc p, List.filterMap_cons]
    cases h : (resolveParam context results p).map fun v => (p, v) <;> simp [h]

/-- C8 (amended): the kwargs dict `_execute_step_method` passes to the
stage method binds each formal parameter by the implemented rule
`resolveParam` — the four specially-mapped names first through
`param_mapping` when non-`None`, then the context by key (a present key
whose value is `None` is passed, not omitted), then the results by key,
omitting only parameters absent everywhere — and the method is called
with zero arguments exactly when no parameter resolves. -/
theorem execute_step_method_binding (params : List String) (context results : PyDict) :
    buildKwargs params context results =
      (params.filterMap fun p => (resolveParam context results p).map fun v => (p, v)) ∧
    (buildKwargs params context results = [] ↔
      ∀ p ∈ params, resolveParam context results p = Option.none) := by
  have h := buildKwargs_go context results params []
  rw [List.nil_append] at h
  refine ⟨h, ?_⟩
  rw [buildKwargs, h, List.filterMap_eq_nil_iff]
  constructor
  · intro hall p hp
    have := hall p hp
    cases hr : resolveParam context results p with
    | some v => rw [hr] at this; simp at this
    | none => rfl
  · intro hall p hp
    rw [hall p hp]
    rfl

/-- C8 counterexample: the claimed rule — look each parameter up first
in the completed-results dict, then in the context, omitting `None` —
disagrees with the implemented binding on concrete inputs: a context
key holding `None` is passed as `None` instead of omitted, and a
generic parameter present in both dicts is taken from the context, not
the results. -/
theorem execute_step_method_binding_counterexample :
    buildKwargs ["foo"] [("foo", PyVal.none)] [] = [("foo", PyVal.none)] ∧
    spec_buildKwargs ["foo"] [("foo", PyVal.none)] [] = [] ∧
    buildKwargs ["bar"] [("bar", PyVal.int 1)] [("bar", PyVal.int 2)] =
      [("bar", PyVal.int 1)] ∧
    spec_buildKwargs ["bar"] [("bar", PyVal.int 1)] [("bar", PyVal.int 2)] =
      [("bar", PyVal.int 2)] :=
  ⟨rfl, rfl, rfl, rfl⟩

/-! ## MetricsCalculator: overall score and recommendations

The six per-dimension metrics records are read through
`getattr(record, field, default)` and `hasattr` — an attribute can be
absent.  Each record type below therefore carries `Option` fields
(`Option.none` = the attribute is absent), restricted to the attributes
`MetricsCalculator` actually reads. -/

structure QualityRecord where
  overall_score : Option ℚ
  comment_density : Option ℚ
deriving DecidableEq, Repr

structure ArchitectureRecord where
  score : Option ℚ
  circular_dependencies : Option ℤ
  coupling_score : Option ℚ
deriving DecidableEq, Repr

structure SmellsRecord where
  severity_score : Option ℚ
  total_count : Option ℤ
  hotspot_files : Option (List String)
deriving DecidableEq, Repr

structure TestsRecord where
  coverage_score : Option ℚ
  test_to_source_ratio : Option ℚ
deriving DecidableEq, Repr

structure DocsRecord where
  score : Option ℚ
  has_contributing_guide : Option Bool
deriving DecidableEq, Repr

structure SustainabilityRecord where
  score : Option ℚ
  bus_factor : Option ℚ
deriving DecidableEq, Repr

/-- Python `round(x, 1)`, modelled on exact rationals. -/
def round1 (x : ℚ) : ℚ := (round (10 * x) : ℤ) / 10

/-- The overall score computed by
`MetricsCalculator.calculate_overall_metrics` (lines 158–199): absent
attributes default to 0 through `getattr(…, …, 0)`; a `None`
`code_smells` argument makes the smell dimension score 10; otherwise the
smell dimension is inverted as `max(0, 10 - severity_score)` (lower
clamp only); the weighted sum is rounded to one decimal place and not
clamped. -/
def calculate_overall_metrics (code_quality : QualityRecord)
    (architecture : ArchitectureRecord) (code_smells : Option SmellsRecord)
    (tests : TestsRecord) (docs : DocsRecord)
    (sustainability : SustainabilityRecord) : ℚ :=
  let smell_score : ℚ :=
    match code_smells with
    | Option.none => 10
    | some sm => max 0 (10 - sm.severity_score.getD 0)
  round1 ((code_quality.overall_score.getD 0) * (25 / 100)
    + (architecture.score.getD 0) * (20 / 100)
    + smell_score * (15 / 100)
    + (tests.coverage_score.getD 0) * (20 / 100)
    + (docs.score.getD 0) * (10 / 100)
    + (sustainability.score.getD 0) * (10 / 100))

/-- C6: for six present dimension inputs with a nonnegative smell
severity (all bounded inputs are in `[0, 10]`), the overall score equals
quality·0.25 + architecture·0.20 + clamp(10 − severity, 0, 10)·0.15 +
tests·0.20 + docs·0.10 + sustainability·0.10, rounded to one decimal
place and not separately clamped (the missing upper clamp in the code's
`max(0, 10 − severity)` never binds for nonnegative severity); in
particular quality 8, architecture 6, severity 2, tests 7, docs 5,
sustainability 9 yields 7.2. -/
theorem calculate_overall_metrics_formula :
    (∀ (q a s t d su : ℚ), 0 ≤ s →
      ∀ (cd : Option ℚ) (cdep : Option ℤ) (cp : Option ℚ) (tc : Option ℤ)
        (hf : Option (List String)) (ratio : Option ℚ) (guide : Option Bool)
        (bus : Option ℚ),
      calculate_overall_metrics ⟨some q, cd⟩ ⟨some a, cdep, cp⟩
          (some ⟨some s, tc, hf⟩) ⟨some t, ratio⟩ ⟨some d, guide⟩ ⟨some su, bus⟩ =
        round1 (q * (25 / 100) + a * (20 / 100)
          + (min 10 (max 0 (10 - s))) * (15 / 100) + t * (20 / 100)
          + d * (10 / 100) + su * (10 / 100))) ∧
    calculate_overall_metrics ⟨some 8, Option.none⟩ ⟨some 6, Option.none, Option.none⟩
        (some ⟨some 2, Option.none, Option.none⟩) ⟨some 7, Option.none⟩
        ⟨some 5, Option.none⟩ ⟨some 9, Option.none⟩ = 72 / 10 := by
  constructor
  · intro q a s t d su hs cd cdep cp tc hf ratio guide bus
    have hclamp : min 10 (max 0 (10 - s)) = max 0 (10 - s) :=
      min_eq_right (max_le (by norm_num) (by linarith))
    simp only [calculate_overall_metrics, Option.getD_some]
    rw [hclamp]
  · norm_num [calculate_overall_metrics, round1]

/-- C6 witness: the theorem applied at the claim's concrete input. -/
theorem calculate_overall_metrics_formula_witness :
    calculate_overall_metrics ⟨some 8, Option.none⟩ ⟨some 6, Option.none, Option.none⟩
        (some ⟨some 2, Option.none, Option.none⟩) ⟨some 7, Option.none⟩
        ⟨some 5, Option.none⟩ ⟨some 9, Option.none⟩ =
      round1 (8 * (25 / 100) + 6 * (20 / 100) + (min 10 (max 0 (10 - 2))) * (15 / 100)
        + 7 * (20 / 100) + 5 * (10 / 100) + 9 * (10 / 100)) :=
  calculate_overall_metrics_formula.1 8 6 2 7 5 9 (by norm_num) Option.none Option.none
    Option.none Option.none Option.none Option.none Option.none Option.none

/-- The `Priority` enum of models/simple_report.py. -/
inductive Priority where
  | low
  | medium
  | high
  | critical
deriving DecidableEq, Repr

/-- The `priority_order` dict used for the final sort (line 314). -/
def priority_order : Priority → ℕ
  | .critical => 0
  | .high => 1
  | .medium => 2
  | .low => 3

/-- A `Recommendation` restricted to the fields
`generate_recommendations` fills. -/
structure Recommendation where
  priority : Priority
  category : String
  description : String
  impact : String
  effort : String
  files_affected : List String := []
deriving DecidableEq, Repr

/-- The `OverallMetrics` record as `generate_recommendations` reads it. -/
structure MetricsRecord where
  code_quality : QualityRecord
  architecture : ArchitectureRecord
  code_smells : SmellsRecord
  tests : TestsRecord
  documentation : DocsRecord
  sustainability : SustainabilityRecord
deriving DecidableEq, Repr

/-- An `hasattr`-guarded recommendation rule: fires only when the
attribute is present and its value satisfies the threshold test. -/
def guardedRule {α : Type} (field : Option α) (cond : α → Bool)
    (r : Recommendation) : List Recommendation :=
  match field with
  | some v => if cond v then [r] else []
  | Option.none => []

def recQualityComplexity : Recommendation :=
  ⟨.high, "Code Quality", "Reduce cyclomatic complexity in complex functions",
    "Improves maintainability and reduces bugs", "medium", []⟩

def recCommentDensity : Recommendation :=
  ⟨.medium, "Code Quality", "Increase code documentation and comments",
    "Better code understanding for team members", "low", []⟩

def recCircularDeps : Recommendation :=
  ⟨.critical, "Architecture", "Resolve circular dependencies between modules",
    "Prevents build issues and improves modularity", "high", []⟩

def recCouplingHigh : Recommendation :=
  ⟨.high, "Architecture", "Reduce coupling between modules",
    "Improves testability and maintainability", "medium", []⟩

/-- The smell-hotspot recommendation carries the first five hotspot
files (`hotspot_files[:5]`). -/
def recSmellHotspots (files : List String) : Recommendation :=
  ⟨.high, "Code Smells", "Address high-priority code smells in hotspot files",
    "Reduces technical debt and improves code quality", "medium", files.take 5⟩

def recTestCoverage : Recommendation :=
  ⟨.high, "Testing", "Increase test coverage, especially for critical modules",
    "Reduces bugs and improves confidence in changes", "high", []⟩

def recTestRatio : Recommendation :=
  ⟨.medium, "Testing", "Add more comprehensive test cases",
    "Better validation of functionality", "medium", []⟩

def recDocsScore : Recommendation :=
  ⟨.medium, "Documentation", "Improve API documentation and code comments",
    "Better onboarding and maintenance", "low", []⟩

def recContributing : Recommendation :=
  ⟨.low, "Documentation", "Add CONTRIBUTING.md guide for new contributors",
    "Easier contribution process", "low", []⟩

def recSustScore : Recommendation :=
  ⟨.medium, "Sustainability", "Increase commit frequency and contributor diversity",
    "Ensures long-term project viability", "high", []⟩

def recBusFactor : Recommendation :=
  ⟨.high, "Sustainability", "Reduce bus factor by spreading knowledge across team",
    "Reduces project risk", "medium", []⟩

/-- Model of `MetricsCalculator.generate_recommendations` (lines 202–317).  Eight
rules are `hasattr`-guarded (absent attribute = rule silently skipped);
four attribute reads are unguarded — `architecture.coupling_score`
(line 236), `code_smells.total_count` (line 246),
`code_smells.hotspot_files` (line 253, reached only when the smell count
exceeds 50) and `documentation.has_contributing_guide` (line 285) — and
raise `AttributeError` when the attribute is absent, modelled as
`Except.error`; the raise happens at the rule's position in the
sequence, discarding earlier appends.  The final list is sorted stably
by `priority_order`. -/
def generate_recommendations (m : MetricsRecord) :
    Except String (List Recommendation) := do
  let r1 := guardedRule m.code_quality.overall_score (fun v => v < 6) recQualityComplexity
  let r2 := guardedRule m.code_quality.comment_density (fun v => v < 1 / 10) recCommentDensity
  let r3 := guardedRule m.architecture.circular_dependencies (fun v => v > 0) recCircularDeps
  let coupling ← match m.architecture.coupling_score with
    | some v => Except.ok v
    | Option.none => Except.error "AttributeError: coupling_score"
  let r4 : List Recommendation := if coupling > 7 then [recCouplingHigh] else []
  let totalCount ← match m.code_smells.total_count with
    | some v => Except.ok v
    | Option.none => Except.error "AttributeError: total_count"
  let r5 : List Recommendation ←
    if totalCount > 50 then
      match m.code_smells.hotspot_files with
      | some files => Except.ok [recSmellHotspots files]
      | Option.none => Except.error "AttributeError: hotspot_files"
    else Except.ok []
  let r6 := guardedRule m.tests.coverage_score (fun v => v < 7) recTestCoverage
  let r7 := guardedRule m.tests.test_to_source_ratio (fun v => v < 3 / 10) recTestRatio
  let r8 := guardedRule m.documentation.score (fun v => v < 6) recDocsScore
  let guide ← match m.documentation.has_contributing_guide with
    | some v => Except.ok v
    | Option.none => Except.error "AttributeError: has_contributing_guide"
  let r9 : List Recommendation := if !guide then [recContributing] else []
  let r10 := guardedRule m.sustainability.score (fun v => v < 6) recSustScore
  let r11 := guardedRule m.sustainability.bus_factor (fun v => v < 3) recBusFactor
  pure ((r1 ++ r2 ++ r3 ++ r4 ++ r5 ++ r6 ++ r7 ++ r8 ++ r9 ++ r10 ++ r11).mergeSort
    (fun a b => priority_order a.priority ≤ priority_order b.priority))

lemma mem_guardedRule_iff {α : Type} {field : Option α} {cond : α → Bool}
    {r x : Recommendation} :
    x ∈ guardedRule field cond r ↔ ∃ v, field = some v ∧ cond v = true ∧ x = r := by
  cases field with
  | none => simp [guardedRule]
  | some v =>
    by_cases hc : cond v <;> simp [guardedRule, hc]

/-- C7 counterexample: a metrics record whose architecture sub-record
lacks `coupling_score` (all other read attributes present and passing)
makes `generate_recommendations` raise `AttributeError` instead of
treating the absent field as neutral. -/
theorem generate_recommendations_counterexample :
    generate_recommendations
      ⟨⟨some 8, some 1⟩, ⟨some 8, some 0, Option.none⟩, ⟨some 1, some 0, some []⟩,
       ⟨some 8, some 1⟩, ⟨some 8, some true⟩, ⟨some 8, some 5⟩⟩ =
      Except.error "AttributeError: coupling_score" := by
  decide

lemma except_ok_bind {α β : Type} (a : α) (f : α → Except String β) :
    (Except.ok a : Except String α) >>= f = f a := rfl

/-- The concatenation of the eleven rule outputs on the success path of
`generate_recommendations`, given the values of the four unguarded
attributes. -/
def ruleSegments (m : MetricsRecord) (c : ℚ) (tc : ℤ) (hf : List String)
    (g : Bool) : List Recommendation :=
  guardedRule m.code_quality.overall_score (fun v => v < 6) recQualityComplexity ++
  guardedRule m.code_quality.comment_density (fun v => v < 1 / 10) recCommentDensity ++
  guardedRule m.architecture.circular_dependencies (fun v => v > 0) recCircularDeps ++
  guardedRule (some c) (fun v => v > 7) recCouplingHigh ++
  guardedRule (some tc) (fun v => v > 50) (recSmellHotspots hf) ++
  guardedRule m.tests.coverage_score (fun v => v < 7) recTestCoverage ++
  guardedRule m.tests.test_to_source_ratio (fun v => v < 3 / 10) recTestRatio ++
  guardedRule m.documentation.score (fun v => v < 6) recDocsScore ++
  guardedRule (some g) (fun v => !v) recContributing ++
  guardedRule m.sustainability.score (fun v => v < 6) recSustScore ++
  guardedRule m.sustainability.bus_factor (fun v => v < 3) recBusFactor

lemma guarded_rules_not_fire (m : MetricsRecord) (c : ℚ) (tc : ℤ)
    (hf : List String) (g : Bool) (recs : List Recommendation)
    (hrecs : recs = (ruleSegments m c tc hf g).mergeSort
      (fun a b => priority_order a.priority ≤ priority_order b.priority)) :
    (m.code_quality.overall_score = Option.none → recQualityComplexity ∉ recs) ∧
    (m.code_quality.comment_density = Option.none → recCommentDensity ∉ recs) ∧
    (m.architecture.circular_dependencies = Option.none → recCircularDeps ∉ recs) ∧
    (m.tests.coverage_score = Option.none → recTestCoverage ∉ recs) ∧
    (m.tests.test_to_source_ratio = Option.none → recTestRatio ∉ recs) ∧
    (m.documentation.score = Option.none → recDocsScore ∉ recs) ∧
    (m.sustainability.score = Option.none → recSustScore ∉ recs) ∧
    (m.sustainability.bus_factor = Option.none → recBusFactor ∉ recs) := by
  subst hrecs
  refine ⟨?_, ?_, ?_, ?_, ?_, ?_, ?_, ?_⟩ <;>
  · intro hnone hmem
    rw [List.mem_mergeSort] at hmem
    simp [ruleSegments, mem_guardedRule_iff, hnone, recQualityComplexity,
      recCommentDensity, recCircularDeps, recCouplingHigh, recSmellHotspots,
      recTestCoverage, recTestRatio, recDocsScore, recContributing, recSustScore,
      recBusFactor] at hmem

/-- C7 (amended): when the four unguarded attributes are present
(`coupling_score`, `total_count`, `hotspot_files`,
`has_contributing_guide`), `generate_recommendations` does not raise,
for any combination of present/absent `hasattr`-guarded attributes; and
each `hasattr`-guarded rule whose attribute is absent does not fire —
its recommendation is not in the returned list. -/
theorem generate_recommendations_guarded (m : MetricsRecord)
    (c : ℚ) (hc : m.architecture.coupling_score = some c)
    (tc : ℤ) (htc : m.code_smells.total_count = some tc)
    (hf : List String) (hhf : m.code_smells.hotspot_files = some hf)
    (g : Bool) (hg : m.documentation.has_contributing_guide = some g) :
    ∃ recs : List Recommendation,
      generate_recommendations m = Except.ok recs ∧
      (m.code_quality.overall_score = Option.none → recQualityComplexity ∉ recs) ∧
      (m.code_quality.comment_density = Option.none → recCommentDensity ∉ recs) ∧
      (m.architecture.circular_dependencies = Option.none → recCircularDeps ∉ recs) ∧
      (m.tests.coverage_score = Option.none → recTestCoverage ∉ recs) ∧
      (m.tests.test_to_source_ratio = Option.none → recTestRatio ∉ recs) ∧
      (m.documentation.score = Option.none → recDocsScore ∉ recs) ∧
      (m.sustainability.score = Option.none → recSustScore ∉ recs) ∧
      (m.sustainability.bus_factor = Option.none → recBusFactor ∉ recs) := by
  have e4 : guardedRule (some c) (fun v => v > 7) recCouplingHigh =
      if c > 7 then [recCouplingHigh] else [] := by
    by_cases h : c > 7 <;> simp [guardedRule, h]
  have e9 : guardedRule (some g) (fun v => !v) recContributing =
      if (!g) = true then [recContributing] else [] := by
    cases g <;> simp [guardedRule]
  by_cases h50 : tc > 50
  · have e5 : guardedRule (some tc) (fun v => v > 50) (recSmellHotspots hf) =
        [recSmellHotspots hf] := by simp [guardedRule, h50]
    have hok : generate_recommendations m = Except.ok ((ruleSegments m c tc hf g).mergeSort
        (fun a b => priority_order a.priority ≤ priority_order b.priority)) := by
      simp only [generate_recommendations, hc, htc, hhf, hg, except_ok_bind, h50, ite_true,
        ruleSegments, e5]
      rw [e4, e9]
      rfl
    exact ⟨_, hok, guarded_rules_not_fire m c tc hf g _ rfl⟩
  · have e5 : guardedRule (some tc) (fun v => v > 50) (recSmellHotspots hf) = [] := by
      simp [guardedRule, h50]
    have hok : generate_recommendations m = Except.ok ((ruleSegments m c tc hf g).mergeSort
        (fun a b => priority_order a.priority ≤ priority_order b.priority)) := by
      simp only [generate_recommendations, hc, htc, hhf, hg, except_ok_bind, h50, ite_false,
        ruleSegments, e5]
      rw [e4, e9]
      rfl
    exact ⟨_, hok, guarded_rules_not_fire m c tc hf g _ rfl⟩

/-- C7 witness: a record with the four unguarded attributes present and
every guarded attribute absent produces a recommendation list without
raising, and none of the guarded rules fire. -/
theorem generate_recommendations_guarded_witness :
    ∃ recs : List Recommendation,
      generate_recommendations
        ⟨⟨Option.none, Option.none⟩, ⟨Option.none, Option.none, some 5⟩,
         ⟨Option.none, some 10, some []⟩, ⟨Option.none, Option.none⟩,
         ⟨Option.none, some true⟩, ⟨Option.none, Option.none⟩⟩ = Except.ok recs ∧
      (QualityRecord.overall_score ⟨Option.none, Option.none⟩ = Option.none →
        recQualityComplexity ∉ recs) ∧
      (QualityRecord.comment_density ⟨Option.none, Option.none⟩ = Option.none →
        recCommentDensity ∉ recs) ∧
      (ArchitectureRecord.circular_dependencies ⟨Option.none, Option.none, some 5⟩ =
          Option.none → recCircularDeps ∉ recs) ∧
      (TestsRecord.coverage_score ⟨Option.none, Option.none⟩ = Option.none →
        recTestCoverage ∉ recs) ∧
      (TestsRecord.test_to_source_ratio ⟨Option.none, Option.none⟩ = Option.none →
        recTestRatio ∉ recs) ∧
      (DocsRecord.score ⟨Option.none, some true⟩ = Option.none → recDocsScore ∉ recs) ∧
      (SustainabilityRecord.score ⟨Option.none, Option.none⟩ = Option.none →
        recSustScore ∉ recs) ∧
      (SustainabilityRecord.bus_factor ⟨Option.none, Option.none⟩ = Option.none →
        recBusFactor ∉ recs) :=
  generate_recommendations_guarded
    ⟨⟨Option.none, Option.none⟩, ⟨Option.none, Option.none, some 5⟩,
     ⟨Option.none, some 10, some []⟩, ⟨Option.none, Option.none⟩,
     ⟨Option.none, some true⟩, ⟨Option.none, Option.none⟩⟩
    5 rfl 10 rfl [] rfl true rfl

/-! ## ArchitectureAnalyzer

A Python dict with string keys and name-collection values (the
dependency graph, the class hierarchy, the package structure) is
modelled as an association list in insertion order; a Python set value
is a duplicate-free list whose order fixes the set's iteration order. -/

abbrev Graph := List (String × List String)

/-- Python `d.get(n, [])` on such a dict. -/
def graphGet (g : Graph) (n : String) : List String :=
  (g.lookup n).getD []

/-- Mutable state of the `dfs` closure in
`_detect_circular_dependencies`: the global `visited` set, the
`rec_stack` set, and the accumulated `cycles` list. -/
structure DetectState where
  visited : List String
  recStack : List String
  cycles : List (List String)
deriving Repr, DecidableEq

/-- The recursive `dfs(node, path)` of `_detect_circular_dependencies`,
with the mutable state passed explicitly.  `fuel` bounds the recursion
depth: every Python-level recursive call is on a node that is neither on
the stack nor visited and immediately marks it visited, so the depth
never exceeds the number of distinct node names, and the callers supply
at least that much fuel (the fuel-exhaustion branch returns the state
unchanged). -/
def dfsDetect (g : Graph) : ℕ → String → List String → DetectState → DetectState
  | fuel, node, path, st =>
    if node ∈ st.recStack then
      let cycleStart := if node ∈ path then path.indexOf node else 0
      { st with cycles := st.cycles ++ [path.drop cycleStart ++ [node]] }
    else if node ∈ st.visited then st
    else
      match fuel with
      | 0 => st
      | f + 1 =>
        let st1 : DetectState :=
          { st with visited := st.visited ++ [node], recStack := st.recStack ++ [node] }
        let st2 := (graphGet g node).foldl
          (fun acc nb => dfsDetect g f nb (path ++ [node]) acc) st1
        { st2 with recStack := st2.recStack.erase node }

/-- Ample fuel for the DFS recursions over one graph: more than the
number of node names that can ever be visited. -/
def graphFuel (g : Graph) : ℕ :=
  g.length + (g.map fun p => p.2.length).sum + 1

/-- Model of `_detect_circular_dependencies`: DFS from every not-yet-visited key
of the dependency graph, in insertion order; returns the list of
recorded cycles (duplicates across entry nodes are not removed). -/
def detect_circular_dependencies (g : Graph) : List (List String) :=
  (g.foldl
    (fun st p => if p.1 ∈ st.visited then st else dfsDetect g (graphFuel g) p.1 [] st)
    ⟨[], [], []⟩).cycles

/-- The inner `has_cycle(start_class, current_class, path)` of
`_calculate_inheritance_depth`: DFS along the parent relation with a
backtracking `path` (the Python code adds `current` to the shared set
before the loop and removes it after, so every child call sees
`path ∪ {current}`).  `fuel` bounds the recursion depth, which never
exceeds the number of distinct class names because every level adds a
fresh name to `path`. -/
def has_cycle (hierarchy : Graph) : ℕ → String → List String → Bool
  | fuel, current, path =>
    if current ∈ path then true
    else
      match graphGet hierarchy current with
      | [] => false
      | parents =>
        match fuel with
        | 0 => true
        | f + 1 => parents.any fun p => has_cycle hierarchy f p (path ++ [current])

/-- Model of `_calculate_depth_helper`: one plus the maximal parent depth, depth
1 for a class with no declared parents.  The Python `current_path`
argument is threaded but never read, so it is dropped here; the helper
is only reached on cycle-free classes, for which the ample fuel of
`calculate_inheritance_depth` never runs out. -/
def calculate_depth_helper (hierarchy : Graph) : ℕ → String → ℕ
  | fuel, class_name =>
    match graphGet hierarchy class_name with
    | [] => 1
    | parents =>
      match fuel with
      | 0 => 1
      | f + 1 =>
        (parents.foldl (fun m p => max m (calculate_depth_helper hierarchy f p)) 0) + 1

/-- Model of `_calculate_inheritance_depth`: run the cycle check first and report
depth 0 when it fires, otherwise the helper's chain length. -/
def calculate_inheritance_depth (hierarchy : Graph) (class_name : String) : ℕ :=
  if has_cycle hierarchy (graphFuel hierarchy) class_name [] then 0
  else calculate_depth_helper hierarchy (graphFuel hierarchy) class_name

/-- The arguments `_calculate_architecture_metrics` receives from
`analyze` (the unused `language_stats` is dropped).  A violation dict is
observed by the metrics only through its `'type'` field, so violations
are embedded as their type strings; `design_pattern_kinds` are the
distinct keys of the `design_patterns_found` Counter. -/
structure ArchInputs where
  dependency_graph : Graph
  module_dependencies : Graph
  class_hierarchy : Graph
  package_structure : List (String × List String)
  design_pattern_kinds : List String
  violations : List String
  total_files : ℕ
deriving Repr, DecidableEq

/-- The metrics dict returned by `_calculate_architecture_metrics`,
before `analyze` rounds it into the `ArchitectureMetrics` record. -/
structure ArchMetrics where
  overall_score : ℚ
  dependency_count : ℕ
  circular_dependencies : ℕ
  coupling_score : ℚ
  cohesion_score : ℚ
  srp_violations : ℕ
  module_count : ℕ
  depth_of_inheritance : ℚ
deriving Repr, DecidableEq

/-- Python `avg_fan_out`: mean out-degree over the keys of the dependency
graph, 0 for an empty graph. -/
def avgFanOut (g : Graph) : ℚ :=
  if g = [] then 0 else ((g.map fun p => p.2.length).sum : ℚ) / (g.length : ℚ)

/-- Python `avg_fan_in`: the `fan_in` defaultdict has one key per DISTINCT
referenced name (whether or not it is a module key), and its values sum
to the total reference count, so the mean is total references over
distinct referenced names, 0 when nothing is referenced. -/
def avgFanInRefs (g : Graph) : ℚ :=
  let refs := (g.map Prod.snd).flatten
  if refs.dedup = [] then 0 else (refs.length : ℚ) / (refs.dedup.length : ℚ)

/-- Model of `_calculate_architecture_metrics` (lines 366–435). -/
def calculate_architecture_metrics (inp : ArchInputs) : ArchMetrics :=
  let total_dependencies : ℕ := (inp.dependency_graph.map fun p => p.2.length).sum
  let circular_deps := detect_circular_dependencies inp.dependency_graph
  let coupling_score : ℚ :=
    max 0 (10 - (avgFanOut inp.dependency_graph + avgFanInRefs inp.dependency_graph) / 4)
  let package_cohesion_scores : List ℚ := inp.package_structure.filterMap fun pkg =>
    if pkg.2.length > 1 then
      let internal : ℕ := (pkg.2.map fun m =>
        ((graphGet inp.module_dependencies m).filter fun d => d ∈ pkg.2).length).sum
      let external : ℕ := (pkg.2.map fun m =>
        ((graphGet inp.module_dependencies m).filter fun d => d ∉ pkg.2).length).sum
      if internal + external > 0 then
        some ((internal : ℚ) / ((internal : ℚ) + (external : ℚ)))
      else Option.none
    else Option.none
  let avg_cohesion : ℚ :=
    if package_cohesion_scores = [] then 1 / 2
    else package_cohesion_scores.sum / (package_cohesion_scores.length : ℚ)
  let cohesion_score := avg_cohesion * 10
  let avg_depth : ℚ :=
    if inp.class_hierarchy = [] then 3 / 2
    else
      let depths := inp.class_hierarchy.map fun p =>
        (calculate_inheritance_depth inp.class_hierarchy p.1 : ℚ)
      depths.sum / (depths.length : ℚ)
  let srp_violations := (inp.violations.filter fun v => v == "solid_srp").length
  let violation_penalty : ℚ := min 5 ((inp.violations.length : ℚ) * (1 / 10))
  let complexity_penalty : ℚ :=
    if inp.total_files > 0 then
      min 2 (((total_dependencies : ℚ) / (inp.total_files : ℚ) - 2) * (1 / 2))
    else 0
  let pattern_bonus : ℚ := min 1 ((inp.design_pattern_kinds.length : ℚ) * (1 / 10))
  let overall_score := max 0 (8 - violation_penalty - complexity_penalty + pattern_bonus)
  { overall_score := overall_score
    dependency_count := total_dependencies
    circular_dependencies := circular_deps.length
    coupling_score := coupling_score
    cohesion_score := cohesion_score
    srp_violations := srp_violations
    module_count := inp.dependency_graph.length
    depth_of_inheritance := avg_depth }

/-- The coupling formula as claim C4 words it: fan-in averaged over ALL
module nodes (the keys of the graph), a node's fan-in being the number
of times it appears as a referenced identifier elsewhere. -/
def spec_coupling_score (g : Graph) : ℚ :=
  let fanIn : List ℕ := g.map fun p =>
    ((g.map fun q => (q.2.filter fun d => d == p.1).length).sum)
  let avgOut : ℚ := if g = [] then 0 else ((g.map fun p => p.2.length).sum : ℚ) / (g.length : ℚ)
  let avgIn : ℚ := if g = [] then 0 else (fanIn.sum : ℚ) / (g.length : ℚ)
  min 10 (max 0 (10 - (avgOut + avgIn) / 4))

/-- C3: the cycle detector, run on {a:{b}, b:{c}, c:{a}}, returns at
least one cycle containing all of a, b, c (here exactly the single
finding [a, b, c, a]); on the acyclic {a:{b,c}, b:{c}, c:{}} it returns
the empty list; and on every input the reported
`circular_dependencies` metric is the length of the detector's cycle
list (distinct detector findings, not edges). -/
theorem detect_circular_dependencies_spec :
    (∃ cyc ∈ detect_circular_dependencies [("a", ["b"]), ("b", ["c"]), ("c", ["a"])],
        "a" ∈ cyc ∧ "b" ∈ cyc ∧ "c" ∈ cyc) ∧
    detect_circular_dependencies [("a", ["b", "c"]), ("b", ["c"]), ("c", [])] = [] ∧
    ∀ inp : ArchInputs,
      (calculate_architecture_metrics inp).circular_dependencies =
        (detect_circular_dependencies inp.dependency_graph).length := by
  exact ⟨⟨["a", "b", "c", "a"], by decide, by decide, by decide, by decide⟩, by decide,
    fun inp => rfl⟩

/-- C4 (amended): for every dependency graph the coupling score equals
clamp(10 − (avg fan-out + avg fan-in)/4, 0, 10), where the fan-in
average divides the total reference count by the number of distinct
REFERENCED names (the keys of the `fan_in` defaultdict), not by the
number of module nodes; the upper clamp never binds because both
averages are nonnegative.  On {a:{b,c}, b:{c}, c:{}} the fan-out average
is 1, the fan-in average is 3/2 (three references over the two
referenced names b, c), and the coupling score is 75/8 = 9.375. -/
theorem coupling_score_formula :
    (∀ inp : ArchInputs,
      (calculate_architecture_metrics inp).coupling_score =
        min 10 (max 0 (10 -
          (avgFanOut inp.dependency_graph + avgFanInRefs inp.dependency_graph) / 4))) ∧
    (calculate_architecture_metrics
      ⟨[("a", ["b", "c"]), ("b", ["c"]), ("c", [])], [], [], [], [], [], 3⟩).coupling_score =
      75 / 8 := by
  constructor
  · intro inp
    have h1 : 0 ≤ avgFanOut inp.dependency_graph := by
      unfold avgFanOut
      split
      · norm_num
      · refine div_nonneg (List.sum_nonneg ?_) (Nat.cast_nonneg _)
        intro x hx
        obtain ⟨p, -, rfl⟩ := List.mem_map.mp hx
        exact Nat.cast_nonneg _
    have h2 : 0 ≤ avgFanInRefs inp.dependency_graph := by
      unfold avgFanInRefs
      dsimp only
      split
      · norm_num
      · exact div_nonneg (Nat.cast_nonneg _) (Nat.cast_nonneg _)
    have hle : max 0 (10 -
        (avgFanOut inp.dependency_graph + avgFanInRefs inp.dependency_graph) / 4) ≤ 10 :=
      max_le (by norm_num) (by linarith)
    exact (min_eq_right hle).symm
  · with_unfolding_all rfl

/-- C4 counterexample: on {a:{b,c}, b:{c}, c:{}} the claimed formula —
fan-in averaged over all module nodes, giving (0+1+2)/3 = 1 and score
9.5 — disagrees with the code, which averages fan-in over the referenced
names only and yields 9.375. -/
theorem coupling_score_counterexample :
    spec_coupling_score [("a", ["b", "c"]), ("b", ["c"]), ("c", [])] = 19 / 2 ∧
    (calculate_architecture_metrics
      ⟨[("a", ["b", "c"]), ("b", ["c"]), ("c", [])], [], [], [], [], [], 3⟩).coupling_score =
      75 / 8 ∧
    (19 : ℚ) / 2 ≠ 75 / 8 := by
  exact ⟨by with_unfolding_all rfl, by with_unfolding_all rfl, by norm_num⟩

/-- C5: inheritance depth on {Child:[Parent], Parent:[GrandParent],
GrandParent:[]} is 3, 2, 1 respectively (generally, any class with no
declared parent has depth 1); on the cyclic {A:[B], B:[A]} the cycle
check fires first and both classes get depth 0, with no unbounded
recursion (the embedding's fuel is a proven-ample bound on the Python
recursion depth). -/
theorem calculate_inheritance_depth_examples :
    calculate_inheritance_depth
      [("Child", ["Parent"]), ("Parent", ["GrandParent"]), ("GrandParent", [])] "Child" = 3 ∧
    calculate_inheritance_depth
      [("Child", ["Parent"]), ("Parent", ["GrandParent"]), ("GrandParent", [])] "Parent" = 2 ∧
    calculate_inheritance_depth
      [("Child", ["Parent"]), ("Parent", ["GrandParent"]), ("GrandParent", [])] "GrandParent" = 1 ∧
    calculate_inheritance_depth [("A", ["B"]), ("B", ["A"])] "A" = 0 ∧
    calculate_inheritance_depth [("A", ["B"]), ("B", ["A"])] "B" = 0 ∧
    ∀ (hierarchy : Graph) (c : String), graphGet hierarchy c = [] →
      calculate_inheritance_depth hierarchy c = 1 := by
  refine ⟨by decide, by decide, by decide, by decide, by decide, ?_⟩
  intro hierarchy c hemp
  have h1 : has_cycle hierarchy (graphFuel hierarchy) c [] = false := by
    unfold has_cycle
    simp [hemp]
  have h2 : calculate_depth_helper hierarchy (graphFuel hierarchy) c = 1 := by
    unfold calculate_depth_helper
    simp [hemp]
  rw [calculate_inheritance_depth, h1, h2]
  simp

/-- C5 witness: the parentless-class conjunct applied to a concrete
one-class hierarchy. -/
theorem calculate_inheritance_depth_examples_witness :
    calculate_inheritance_depth [("Solo", [])] "Soloist" = 1 :=
  calculate_inheritance_depth_examples.2.2.2.2.2 [("Solo", [])] "Soloist" (by decide)

/-! ## `ArchitectureAnalyzer.analyze` -/

/-- The dict `_analyze_file_architecture` returns for a readable,
nonempty file, restricted to the keys `analyze` consumes
(`complexity_indicators` is computed but never read by `analyze`). -/
structure FileAnalysis where
  language : String
  dependencies : List String
  inheritance : List (String × List String)
  patterns : List String
  violations : List String
deriving Repr, DecidableEq

/-- One source file as `analyze` observes it: its module name
(`file_path.stem`), its package name (`file_path.parent.name`), and the
result of `_analyze_file_architecture` — `Option.none` models the empty
dict returned when the file cannot be opened or decoded (the
`except` branch of lines 153–157) or has no content, which makes the
`if file_analysis:` guard skip the file. -/
structure SrcFile where
  module_name : String
  package_name : String
  analysis : Option FileAnalysis
deriving Repr, DecidableEq

/-- The accumulators of `analyze`'s per-file loop (lines 82–125).
`pattern_occurrences` is the multiset underlying the
`design_patterns_found` Counter; the `language_stats` Counter is dropped
because `_calculate_architecture_metrics` never reads it. -/
structure AnalyzeState where
  dependency_graph : Graph
  module_dependencies : Graph
  class_hierarchy : Graph
  package_structure : List (String × List String)
  pattern_occurrences : List String
  violations : List String
deriving Repr, DecidableEq

/-- Python `set.add`-style insertion preserving first-insertion order. -/
def setInsert (xs : List String) (v : String) : List String :=
  if v ∈ xs then xs else xs ++ [v]

/-- Python `set.update` on the association-list encoding. -/
def setUnion (xs vs : List String) : List String :=
  vs.foldl setInsert xs

/-- Python `defaultdict(set)[k].update(vs)`. -/
def assocUpdateUnion (g : Graph) (k : String) (vs : List String) : Graph :=
  if (g.lookup k).isSome then
    g.map fun p => if p.1 == k then (p.1, setUnion p.2 vs) else p
  else g ++ [(k, setUnion [] vs)]

/-- Python `d[k] = vs` on a dict, preserving key order. -/
def assocSet (g : Graph) (k : String) (vs : List String) : Graph :=
  if (g.lookup k).isSome then
    g.map fun p => if p.1 == k then (p.1, vs) else p
  else g ++ [(k, vs)]

/-- Python `defaultdict(list)[k].append(v)`. -/
def assocAppend (g : Graph) (k : String) (v : String) : Graph :=
  if (g.lookup k).isSome then
    g.map fun p => if p.1 == k then (p.1, p.2 ++ [v]) else p
  else g ++ [(k, [v])]

/-- The body of `analyze`'s per-file loop: a file whose analysis is the
empty dict is skipped entirely; otherwise every accumulator is updated
from the file's analysis. -/
def processFile (st : AnalyzeState) (f : SrcFile) : AnalyzeState :=
  match f.analysis with
  | Option.none => st
  | some fa =>
    { dependency_graph := assocUpdateUnion st.dependency_graph f.module_name fa.dependencies
      module_dependencies := assocSet st.module_dependencies f.module_name fa.dependencies
      class_hierarchy := fa.inheritance.foldl
        (fun h p => assocUpdateUnion h p.1 p.2) st.class_hierarchy
      package_structure := assocAppend st.package_structure f.package_name f.module_name
      pattern_occurrences := st.pattern_occurrences ++ fa.patterns
      violations := st.violations ++ fa.violations }

/-- The per-file loop of `analyze` over the whole file list. -/
def buildState (files : List SrcFile) : AnalyzeState :=
  files.foldl processFile ⟨[], [], [], [], [], []⟩

/-- The `ArchitectureMetrics` record `analyze` returns, with its rounded
fields. -/
structure ArchitectureMetricsRecord where
  score : ℚ
  dependency_count : ℕ
  circular_dependencies : ℕ
  coupling_score : ℚ
  cohesion_score : ℚ
  srp_violations : ℕ
  module_count : ℕ
  depth_of_inheritance : ℚ
deriving Repr, DecidableEq

/-- Model of `ArchitectureAnalyzer.analyze` (lines 78–149): fold the per-file
loop, compute the metrics dict with `total_files = len(source_files)`
(the length of the FULL input list, skipped files included), and round
into the returned record. -/
def analyze (files : List SrcFile) : ArchitectureMetricsRecord :=
  let st := buildState files
  let metrics := calculate_architecture_metrics
    ⟨st.dependency_graph, st.module_dependencies, st.class_hierarchy,
     st.package_structure, st.pattern_occurrences.dedup, st.violations, files.length⟩
  { score := round1 metrics.overall_score
    dependency_count := metrics.dependency_count
    circular_dependencies := metrics.circular_dependencies
    coupling_score := round1 metrics.coupling_score
    cohesion_score := round1 metrics.cohesion_score
    srp_violations := metrics.srp_violations
    module_count := metrics.module_count
    depth_of_inheritance := round1 metrics.depth_of_inheritance }

lemma buildState_go (files : List SrcFile) :
    ∀ st : AnalyzeState,
      files.foldl processFile st =
        (files.filter fun f => f.analysis.isSome).foldl processFile st := by
  induction files with
  | nil => intro st; rfl
  | cons f fs ih =>
    intro st
    rw [List.foldl_cons, List.filter_cons]
    cases hfa : f.analysis with
    | none =>
      have hp : processFile st f = st := by unfold processFile; rw [hfa]
      simp [hp, ih st]
    | some fa =>
      simp [List.foldl_cons, ih (processFile st f)]

lemma metrics_ignore_total_files (g md ch : Graph)
    (ps : List (String × List String)) (pk vi : List String) (t1 t2 : ℕ) :
    (calculate_architecture_metrics ⟨g, md, ch, ps, pk, vi, t1⟩).dependency_count =
      (calculate_architecture_metrics ⟨g, md, ch, ps, pk, vi, t2⟩).dependency_count ∧
    (calculate_architecture_metrics ⟨g, md, ch, ps, pk, vi, t1⟩).circular_dependencies =
      (calculate_architecture_metrics ⟨g, md, ch, ps, pk, vi, t2⟩).circular_dependencies ∧
    (calculate_architecture_metrics ⟨g, md, ch, ps, pk, vi, t1⟩).coupling_score =
      (calculate_architecture_metrics ⟨g, md, ch, ps, pk, vi, t2⟩).coupling_score ∧
    (calculate_architecture_metrics ⟨g, md, ch, ps, pk, vi, t1⟩).cohesion_score =
      (calculate_architecture_metrics ⟨g, md, ch, ps, pk, vi, t2⟩).cohesion_score ∧
    (calculate_architecture_metrics ⟨g, md, ch, ps, pk, vi, t1⟩).srp_violations =
      (calculate_architecture_metrics ⟨g, md, ch, ps, pk, vi, t2⟩).srp_violations ∧
    (calculate_architecture_metrics ⟨g, md, ch, ps, pk, vi, t1⟩).module_count =
      (calculate_architecture_metrics ⟨g, md, ch, ps, pk, vi, t2⟩).module_count ∧
    (calculate_architecture_metrics ⟨g, md, ch, ps, pk, vi, t1⟩).depth_of_inheritance =
      (calculate_architecture_metrics ⟨g, md, ch, ps, pk, vi, t2⟩).depth_of_inheritance :=
  ⟨rfl, rfl, rfl, rfl, rfl, rfl, rfl⟩

/-- C9 (amended): a file whose `_analyze_file_architecture` result is
the empty dict (unreadable, undecodable, or empty) is skipped without
aborting `analyze`: all accumulated structures — dependency graph,
module dependencies, class hierarchy, package structure, pattern counts,
violations — are exactly those of the readable files alone, and every
returned metric except the overall `score` is unchanged by the presence
of skipped files.  The overall `score` is the exception: skipped files
still count in `total_files`, which feeds the complexity penalty
(refuted claim part, see the counterexample). -/
theorem analyze_skips_unreadable_files :
    (∀ files : List SrcFile,
      buildState files = buildState (files.filter fun f => f.analysis.isSome)) ∧
    (∀ files : List SrcFile,
      (analyze files).dependency_count =
        (analyze (files.filter fun f => f.analysis.isSome)).dependency_count ∧
      (analyze files).circular_dependencies =
        (analyze (files.filter fun f => f.analysis.isSome)).circular_dependencies ∧
      (analyze files).coupling_score =
        (analyze (files.filter fun f => f.analysis.isSome)).coupling_score ∧
      (analyze files).cohesion_score =
        (analyze (files.filter fun f => f.analysis.isSome)).cohesion_score ∧
      (analyze files).srp_violations =
        (analyze (files.filter fun f => f.analysis.isSome)).srp_violations ∧
      (analyze files).module_count =
        (analyze (files.filter fun f => f.analysis.isSome)).module_count ∧
      (analyze files).depth_of_inheritance =
        (analyze (files.filter fun f => f.analysis.isSome)).depth_of_inheritance) := by
  have hbs : ∀ files : List SrcFile,
      buildState files = buildState (files.filter fun f => f.analysis.isSome) :=
    fun files => buildState_go files ⟨[], [], [], [], [], []⟩
  refine ⟨hbs, fun files => ?_⟩
  simp only [analyze]
  rw [hbs files]
  exact ⟨rfl, rfl, rfl, rfl, rfl, rfl, rfl⟩

/-- A readable file with four external dependencies and a file whose
open raises, for the C9 counterexample. -/
def readableFile : SrcFile := ⟨"m", "p", some ⟨"python", ["w", "x", "y", "z"], [], [], []⟩⟩

def unreadableFile : SrcFile := ⟨"broken", "p", Option.none⟩

/-- C9 counterexample: the skipped file is NOT excluded from all derived
metrics — it still counts in `total_files`, so the overall score's
complexity penalty changes: one readable file with four dependencies
scores 7.0 alone but 8.0 when an unreadable file is added alongside
it. -/
theorem analyze_skips_unreadable_files_counterexample :
    (analyze [readableFile, unreadableFile]).score = 8 ∧
    (analyze [readableFile]).score = 7 ∧
    (analyze [readableFile, unreadableFile]).score ≠ (analyze [readableFile]).score := by
  refine ⟨by with_unfolding_all rfl, by with_unfolding_all rfl, ?_⟩
  intro h
  rw [show (analyze [readableFile, unreadableFile]).score = 8 from by with_unfolding_all rfl,
    show (analyze [readableFile]).score = 7 from by with_unfolding_all rfl] at h
  norm_num at h

end GitHealth
